import Mathlib

/-!
Verification of the ansible fleet modules: the `fleetctl` output parser
(`cloud/fleet.py`, function `parse_facts` and the result construction in
`main`) and the fleet unit reconciler (`cloud/coreos/fleet_unit.py`,
functions `unit`, `get_unit`, `get_unit_if_exists`,
`set_desired_state_or_fail`, `create_unit_or_fail`).

The Python code is embedded shallowly: Python strings become `String`,
Python dicts become insertion-ordered association lists (`dget`/`dinsert`),
exceptions become `Except`/explicit error outcomes, and the remote fleet
client is an explicit behaviour record.  The relevant Python string
primitives (`str.split` with and without a separator, `in`, `lower`,
`str.format`) are modelled by executable functions below.
-/

/-! ## Python string primitives -/

/-- Python whitespace for `str.split(None)`. -/
def isPySpace (c : Char) : Bool :=
  c == ' ' || c == '\t' || c == '\n' || c == '\r' || c == '\x0b' || c == '\x0c'

/-- Model of Python `s.split(None, maxsplit)` on a character list: runs of
whitespace separate words; leading and trailing whitespace is dropped; once
`maxsplit` words have been produced the remainder (with leading whitespace
dropped) is the final element. -/
def pySplitNoneAux : Nat → List Char → List String
  | maxs, cs =>
    let rest := cs.dropWhile isPySpace
    match rest with
    | [] => []
    | _ :: _ =>
      match maxs with
      | 0 => [String.mk rest]
      | m + 1 =>
        String.mk (rest.takeWhile (fun c => !isPySpace c)) ::
          pySplitNoneAux m (rest.dropWhile (fun c => !isPySpace c))

/-- Python `s.split(None, maxsplit)`. -/
def pySplitNone (s : String) (maxsplit : Nat) : List String :=
  pySplitNoneAux maxsplit s.data

/-- Python `s.split()` (no maxsplit): the bound `s.length` is never reached
because every produced word consumes at least one character. -/
def pySplit (s : String) : List String :=
  pySplitNoneAux s.data.length s.data

/-- Model of Python `s.split(sep)` for a one-character separator `sep`:
every occurrence of `sep` separates fields, empty fields are kept. -/
def pySplitSepAux (sep : Char) : List Char → List Char → List String
  | acc, [] => [String.mk acc.reverse]
  | acc, c :: cs =>
    if c == sep then String.mk acc.reverse :: pySplitSepAux sep [] cs
    else pySplitSepAux sep (c :: acc) cs

/-- Python `s.split(sep)` for a one-character separator. -/
def pySplitSep (sep : Char) (s : String) : List String :=
  pySplitSepAux sep [] s.data

/-- Python `c in s` for a one-character needle. -/
def pyContains (c : Char) (s : String) : Bool :=
  s.data.contains c

/-- Python `s.lower()` (the inputs here are ASCII column headers). -/
def pyLower (s : String) : String :=
  String.mk (s.data.map Char.toLower)

/-! ## Python dicts as insertion-ordered association lists -/

/-- Python `d.get(k)`: the value bound to `k`, if any. -/
def dget {κ α : Type} [DecidableEq κ] (d : List (κ × α)) (k : κ) : Option α :=
  match d with
  | [] => none
  | (k', v) :: t => if k' = k then some v else dget t k

/-- Python `d[k] = v`: update in place if `k` is bound, else append. -/
def dinsert {κ α : Type} [DecidableEq κ] (d : List (κ × α)) (k : κ) (v : α) :
    List (κ × α) :=
  match d with
  | [] => [(k, v)]
  | (k', v') :: t => if k' = k then (k, v) :: t else (k', v') :: dinsert t k v

/-- Lookup through two nested dict levels. -/
def dget2 {κ1 κ2 α : Type} [DecidableEq κ1] [DecidableEq κ2]
    (d : List (κ1 × List (κ2 × α))) (k1 : κ1) (k2 : κ2) : Option α :=
  (dget d k1).bind fun d2 => dget d2 k2

/-- Lookup through three nested dict levels. -/
def dget3 {κ1 κ2 κ3 α : Type} [DecidableEq κ1] [DecidableEq κ2] [DecidableEq κ3]
    (d : List (κ1 × List (κ2 × List (κ3 × α)))) (k1 : κ1) (k2 : κ2) (k3 : κ3) :
    Option α :=
  (dget d k1).bind fun d2 => dget2 d2 k2 k3

/-! ## The fact parser of `cloud/fleet.py` (`parse_facts`) -/

/-- Python exceptions that `parse_facts` can raise. -/
inductive PyErr where
  | indexError
  | valueError
  | keyError
deriving DecidableEq, Repr

/-- One machine record: `dict(id=row[0], ip=row[1], metadata=metadata)`. -/
structure MachineData where
  id : String
  ip : String
  metadata : List (String × String)
deriving DecidableEq, Repr

/-- The facts built by the `list-machines` branch.  `machines` is
`facts[fleet_machines]`; the `by` dict holds the two secondary indexes
(`machines_by_ip` is `by[ip]`, `machines_by_meta` is `by[meta]`);
`num_machines` is `facts[fleet_num_machines]`, `none` when the key was
never set. -/
structure MachineFacts where
  machines : List (String × MachineData)
  machines_by_ip : List (String × List (String × MachineData))
  machines_by_meta : List (String × List (String × List (String × MachineData)))
  num_machines : Option Nat
deriving DecidableEq, Repr

/-- The metadata loop body: segments without a `=` are skipped
(`if then must be blank`); `k, v = kv.split(=)` raises ValueError unless
the split has exactly two parts. -/
def parseKVs : List String → Except PyErr (List (String × String))
  | [] => .ok []
  | kv :: t =>
    if pyContains '=' kv then
      match pySplitSep '=' kv with
      | [k, v] =>
        match parseKVs t with
        | .ok ps => .ok ((k, v) :: ps)
        | .error e => .error e
      | _ => .error .valueError
    else
      parseKVs t

/-- `vmeta[machine_data[id]] = machine_data` together with the two
`if not kmeta` / `if not vmeta` refreshes: a missing key and an empty dict
are treated alike, so the net effect is a nested insert. -/
def by_meta_add
    (bm : List (String × List (String × List (String × MachineData))))
    (k v : String) (md : MachineData) :
    List (String × List (String × List (String × MachineData))) :=
  let kmeta := (dget bm k).getD []
  let vmeta := (dget kmeta v).getD []
  dinsert bm k (dinsert kmeta v (dinsert vmeta md.id md))

/-- `by_machines[machine_data[id]] = machine_data` for the by-ip index. -/
def by_ip_add (b : List (String × List (String × MachineData)))
    (v : String) (md : MachineData) :
    List (String × List (String × MachineData)) :=
  let bucket := (dget b v).getD []
  dinsert b v (dinsert bucket md.id md)

/-- One iteration of the row loop of the `list-machines` branch.
`row = row.split(None, 3)`; an empty row is skipped; `row[1]` and `row[2]`
raise IndexError when the row has fewer than 2 resp. 3 tokens.  The
`machine_data` dict is one shared object, so the index entries inserted
while the metadata dict is still being filled all observe the finished
metadata; the embedding therefore builds the finished record first. -/
def machRow (acc : MachineFacts) (r : String) : Except PyErr MachineFacts :=
  match pySplitNone r 3 with
  | [] => .ok acc
  | [_] => .error .indexError
  | [_, _] => .error .indexError
  | rid :: rip :: blob :: _ =>
    match (if blob ≠ "" then parseKVs (pySplitSep ',' blob) else .ok []) with
    | .error e => .error e
    | .ok pairs =>
      let md : MachineData := ⟨rid, rip, pairs.foldl (fun m p => dinsert m p.1 p.2) []⟩
      let bm := pairs.foldl (fun b p => by_meta_add b p.1 p.2 md) acc.machines_by_meta
      let bip := if rip ≠ "" then by_ip_add acc.machines_by_ip rip md
                 else acc.machines_by_ip
      .ok ⟨dinsert acc.machines rid md, bip, bm, acc.num_machines⟩

/-- The row loop over `rows[1:]`; an exception aborts the whole parse. -/
def machRows (acc : MachineFacts) : List String → Except PyErr MachineFacts
  | [] => .ok acc
  | r :: rs =>
    match machRow acc r with
    | .error e => .error e
    | .ok acc' => machRows acc' rs

/-- The `list-machines` branch of `parse_facts`: split on newlines, discard
the header, process the remaining rows, and set `fleet_num_machines` only
when there were at least two lines. -/
def parseListMachines (output : String) : Except PyErr MachineFacts :=
  let init : MachineFacts := ⟨[], [], [], none⟩
  match pySplitSep '\n' output with
  | _ :: r1 :: rest =>
    match machRows init (r1 :: rest) with
    | .error e => .error e
    | .ok acc => .ok { acc with num_machines := some acc.machines.length }
  | _ => .ok init

/-- A unit record: `dict(zip(header, row))` after normalising `-` and empty
values to `None`. -/
abbrev UnitData := List (String × Option String)

/-- The facts built by the `list-units` branch.  `units` is
`facts[fleet_units]`, keyed by `unit_data[hash]` (which is an `Option`
because the normalisation can map the hash itself to `None`); the four
`by_*` fields are the entries of the `by` dict created for the fixed tuple
of by-keys `(load, active, sub, machine)`; `num_units` is
`facts[fleet_num_units]`. -/
structure UnitFacts where
  units : List (Option String × UnitData)
  by_load : List (String × List (Option String × UnitData))
  by_active : List (String × List (Option String × UnitData))
  by_sub : List (String × List (Option String × UnitData))
  by_machine : List (String × List (Option String × UnitData))
  num_units : Option Nat
deriving DecidableEq, Repr

/-- The sentinel normalisation: `if v == - or (not v): unit_data[k] = None`. -/
def normVal (v : String) : Option String :=
  if v = "-" ∨ v = "" then none else some v

/-- `by_units[unit_data[hash]] = unit_data` with the `by[by_key].get(v)` /
`if not by_units` refresh; `unit_data[hash]` raises KeyError when the header
produced no `hash` column. -/
def ub_add (b : List (String × List (Option String × UnitData)))
    (v : String) (ud : UnitData) :
    Except PyErr (List (String × List (Option String × UnitData))) :=
  let bucket := (dget b v).getD []
  match dget ud "hash" with
  | none => .error .keyError
  | some h => .ok (dinsert b v (dinsert bucket h ud))

/-- One turn of the `for by_key in by_keys` loop: `v = unit_data[by_key]`
raises KeyError when the column is missing; a falsy value (`None` or the
empty string) is not indexed. -/
def unitRowField (ud : UnitData)
    (b : List (String × List (Option String × UnitData))) (fname : String) :
    Except PyErr (List (String × List (Option String × UnitData))) :=
  match dget ud fname with
  | none => .error .keyError
  | some v =>
    match v with
    | none => .ok b
    | some s => if s ≠ "" then ub_add b s ud else .ok b

/-- One iteration of the row loop of the `list-units` branch:
`row = row.split(None, 7)`, empty rows skipped,
`unit_data = dict(zip(header, row))`, sentinel normalisation, the four
secondary indexes in by-key order, then `units[unit_data[hash]]`. -/
def unitRow (header : List String) (acc : UnitFacts) (r : String) :
    Except PyErr UnitFacts :=
  match pySplitNone r 7 with
  | [] => .ok acc
  | row =>
    let ud : UnitData :=
      ((header.zip row).foldl (fun m p => dinsert m p.1 p.2) []).map
        (fun p => (p.1, normVal p.2))
    match unitRowField ud acc.by_load "load" with
    | .error e => .error e
    | .ok bl =>
      match unitRowField ud acc.by_active "active" with
      | .error e => .error e
      | .ok ba =>
        match unitRowField ud acc.by_sub "sub" with
        | .error e => .error e
        | .ok bs =>
          match unitRowField ud acc.by_machine "machine" with
          | .error e => .error e
          | .ok bm =>
            match dget ud "hash" with
            | none => .error .keyError
            | some h => .ok ⟨dinsert acc.units h ud, bl, ba, bs, bm, acc.num_units⟩

/-- The row loop over `rows[1:]` of the `list-units` branch. -/
def unitRows (header : List String) (acc : UnitFacts) :
    List String → Except PyErr UnitFacts
  | [] => .ok acc
  | r :: rs =>
    match unitRow header acc r with
    | .error e => .error e
    | .ok acc' => unitRows header acc' rs

/-- The `list-units` branch of `parse_facts`: the first line becomes the
lower-cased header; `fleet_num_units` is set only when there were at least
two lines. -/
def parseListUnits (output : String) : Except PyErr UnitFacts :=
  let init : UnitFacts := ⟨[], [], [], [], [], none⟩
  match pySplitSep '\n' output with
  | r0 :: r1 :: rest =>
    let header := (pySplit r0).map pyLower
    match unitRows header init (r1 :: rest) with
    | .error e => .error e
    | .ok acc => .ok { acc with num_units := some acc.units.length }
  | _ => .ok init

/-- The facts dictionary returned by `parse_facts`: machine facts, unit
facts, or the empty dict for any other command. -/
inductive FleetFacts where
  | machineFacts (f : MachineFacts)
  | unitFacts (f : UnitFacts)
  | empty
deriving DecidableEq, Repr

/-- `parse_facts(command, command_args, output)` of `cloud/fleet.py`.
`command_args` is accepted and ignored, as in the source. -/
def parse_facts (command : String) (command_args : Option (List String))
    (output : String) : Except PyErr FleetFacts :=
  match command_args with
  | _ =>
    if command = "list-machines" then
      match parseListMachines output with
      | .ok f => .ok (.machineFacts f)
      | .error e => .error e
    else if command = "list-units" then
      match parseListUnits output with
      | .ok f => .ok (.unitFacts f)
      | .error e => .error e
    else .ok .empty

/-! ## The result construction of `main` in `cloud/fleet.py` -/

/-- The `CMD_ARGS` table. -/
def CMD_ARGS (command : String) : Option (List String) :=
  if command = "list-machines" then
    some ["-full=true", "-fields=machine,ip,metadata", "-no-legend=false"]
  else if command = "list-units" then
    some ["-full=true", "-fields=hash,unit,load,active,sub,machine", "-no-legend=false"]
  else none

/-- Commands that require the `unit` argument. -/
def unitRequiredCommands : List String :=
  ["submit", "verify", "start", "stop", "status", "destroy", "load", "unload",
   "cat", "journal"]

/-- Module results of `main`: `exit_json`, the two `fail_json` sites, or an
uncaught Python exception escaping `parse_facts`. -/
inductive ModuleResult where
  | exitJson (changed : Bool) (msg : String) (output : String) (facts : FleetFacts)
  | failJsonUnitRequired (msg : String)
  | failJsonProc (returncode : Int) (output : String)
  | pyError (e : PyErr)
deriving DecidableEq, Repr

/-- Truthiness of an optional string parameter (`None` and `` are falsy). -/
def truthyS : Option String → Bool
  | none => false
  | some s => !(s == "")

/-- The tail of `main` in `cloud/fleet.py`, from the unit-argument check
through the `try` block: argument assembly (which only builds the argv and
cannot fail) is elided; the subprocess outcome is the `run` input, `.ok`
for a zero exit status with the captured stdout, `.error` for a
`CalledProcessError` with return code and partial output. -/
def fleetMain (command : String) (unitArg : Option String)
    (run : Except (Int × String) String) : ModuleResult :=
  if command ∈ unitRequiredCommands ∧ ¬ truthyS unitArg then
    .failJsonUnitRequired ("unit argument required for command=" ++ command)
  else
    match run with
    | .error (rc, out) => .failJsonProc rc out
    | .ok output =>
      match parse_facts command (CMD_ARGS command) output with
      | .error e => .pyError e
      | .ok facts => .exitJson true "OK" output facts

/-! ## The unit reconciler of `cloud/coreos/fleet_unit.py` -/

/-- A fleet unit instance as seen through the client library: the fields
the module reads. -/
structure FUnit where
  name : String
  currentState : String
deriving DecidableEq, Repr

/-- One entry of the `options` parameter (section, name, value). -/
structure UnitOption where
  sec : String
  name : String
  value : String
deriving DecidableEq, Repr

/-- The module parameters consumed by `unit` and its helpers.  `poll_secs`
only feeds `time.sleep` and has no observable effect, so it is omitted. -/
structure FleetParams where
  state : String
  name : Option String
  src : Option String
  text : Option String
  options : Option (List UnitOption)
  oneway : Bool
  poll_retry : Int

/-- Truthiness of the optional options list (`None` and `[]` are falsy). -/
def truthyOpts : Option (List UnitOption) → Bool
  | none => false
  | some l => !l.isEmpty

/-- The remote calls the module issues against the fleet client. -/
inductive RCall where
  | getUnit (name : String)
  | setDesiredState (name state : String)
  | destroyUnit (name : String)
  | createUnit (name : String)
deriving DecidableEq, Repr

/-- How one invocation terminates: `module.exit_json`, `module.fail_json`,
or an uncaught Python exception. -/
inductive ROutcome where
  | exitJson (changed : Bool) (msg : Option String)
  | failJson (msg : String)
  | pyError (msg : String)
deriving DecidableEq, Repr

/-- The behaviour of the remote fleet client during one invocation:
`getUnitResp n` is the response to the `n`-th `client.get_unit` call (an
`APIError` status code or a unit); the other operations respond by
argument.  `unitCtorResp` models the `fleet.Unit(...)` constructor, whose
only failure mode used by the module is `IOError`. -/
structure ClientBehavior where
  getUnitResp : Nat → Except Nat FUnit
  setDesiredResp : String → String → Except Nat String
  destroyResp : String → Except Nat Unit
  createResp : String → Except Nat FUnit
  unitCtorResp : Except String Unit

/-- Python `"%s" % name` for an optional string (None prints as `None`). -/
def nameStr : Option String → String
  | none => "None"
  | some s => s

/-- Models `str(e)` for a `fleet.APIError` carrying an HTTP status code. -/
def apiErrStr (code : Nat) : String :=
  "APIError(" ++ toString code ++ ")"

/-- The outcome of `get_unit`: the 404 `APIError` becomes `NotFound`, any
other `APIError` is re-raised. -/
inductive GetResult where
  | found (u : FUnit)
  | notFound
  | apiError (code : Nat)
deriving DecidableEq, Repr

/-- `get_unit(client, name)` on the `idx`-th `client.get_unit` call. -/
def get_unit (cb : ClientBehavior) (idx : Nat) : GetResult :=
  match cb.getUnitResp idx with
  | .ok u => .found u
  | .error 404 => .notFound
  | .error c => .apiError c

/-! ### `str.format` and the convergence-timeout message

The timeout message template in `set_desired_state_or_fail` is (after
implicit string-literal concatenation)
`after {0} retries, the unit {1] was in the {2] state, expected {3}` —
note the two fields closed with `]` instead of a brace.  CPython scans a
replacement field from `{` to the matching `}` and raises
`ValueError: unexpected brace in field name` when another `{` appears
inside the field name, which is exactly what happens here: the scan of the
field opened at `{1]` runs into the `{` of `{2]`.  `pyFormat` models this
subset of `str.format` (literal text, `{digits}` fields, the field-name
scan errors). -/

/-- Scan a replacement field name up to its closing brace; a nested `{`
inside the name is a ValueError. -/
def scanField : List Char → Except String (List Char × List Char)
  | [] => .error "expected \x7d before end of string"
  | c :: t =>
    if c == '\x7d' then .ok ([], t)
    else if c == '\x7b' then .error "unexpected \x7b in field name"
    else
      match scanField t with
      | .ok (f, r) => .ok (c :: f, r)
      | .error e => .error e

/-- Decimal value of a digit string. -/
def digitsToNat (f : List Char) : Nat :=
  f.foldl (fun n c => n * 10 + (c.toNat - '0'.toNat)) 0

/-- Interpret a scanned field name as a positional argument index. -/
def fieldArg (args : List String) (f : List Char) : Except String String :=
  if f.all Char.isDigit ∧ f ≠ [] then
    match args.get? (digitsToNat f) with
    | some a => .ok a
    | none => .error "index out of range"
  else .error "bad field name"

/-- The `str.format` walk.  The fuel starts at one more than the number of
characters and every step consumes at least one character, so the `0` case
is unreachable. -/
def pyFormatAux (args : List String) : Nat → List Char → Except String String
  | 0, _ => .error "format fuel exhausted"
  | _ + 1, [] => .ok ""
  | fuel + 1, c :: t =>
    if c == '\x7b' then
      match t with
      | tc :: t' =>
        if tc == '\x7b' then
          match pyFormatAux args fuel t' with
          | .ok s => .ok ("\x7b" ++ s)
          | .error e => .error e
        else
          match scanField t with
          | .error e => .error e
          | .ok (f, r) =>
            match fieldArg args f with
            | .error e => .error e
            | .ok a =>
              match pyFormatAux args fuel r with
              | .ok s => .ok (a ++ s)
              | .error e => .error e
      | [] => .error "expected \x7d before end of string"
    else if c == '\x7d' then
      match t with
      | tc :: t' =>
        if tc == '\x7d' then
          match pyFormatAux args fuel t' with
          | .ok s => .ok ("\x7d" ++ s)
          | .error e => .error e
        else .error "single \x7d encountered in format string"
      | [] => .error "single \x7d encountered in format string"
    else
      match pyFormatAux args fuel t with
      | .ok s => .ok (String.mk [c] ++ s)
      | .error e => .error e

/-- Python `template.format(*args)` for the subset used here. -/
def pyFormat (template : String) (args : List String) : Except String String :=
  pyFormatAux args (template.data.length + 1) template.data

/-- The timeout message template of `set_desired_state_or_fail`, with the
two malformed fields `\x7b1]` and `\x7b2]` exactly as in the source. -/
def timeoutTemplate : String :=
  "after \x7b0\x7d retries, the unit \x7b1] was in the \x7b2] state, expected \x7b3\x7d"

/-- The polling loop of `set_desired_state_or_fail` (`while True`).  Each
iteration re-fetches the unit (`get_unit`), breaks on convergence,
decrements `remaining` and fails with the timeout message once it drops to
zero or below; an `APIError` from the re-fetch is caught by the
surrounding handler, a `NotFound` (404) escapes uncaught.  The fuel starts
at `poll_retry.toNat + 1`, which exceeds the number of iterations, so the
`0` case is unreachable. -/
def pollLoop (cb : ClientBehavior) (p : FleetParams) (target : String) :
    (instName : String) → (remaining : Int) → (idx : Nat) →
    (trace : List RCall) → Nat → Except ROutcome FUnit × List RCall × Nat
  | _, _, idx, trace, 0 => (.error (.pyError "poll fuel exhausted"), trace, idx)
  | instName, remaining, idx, trace, fuel + 1 =>
    let trace := trace ++ [RCall.getUnit instName]
    match get_unit cb idx with
    | .apiError c =>
      (.error (.failJson ("could not retrieve unit " ++ instName ++ ": " ++ apiErrStr c)),
       trace, idx + 1)
    | .notFound => (.error (.pyError ("NotFound: " ++ instName)), trace, idx + 1)
    | .found u =>
      if u.currentState = target then (.ok u, trace, idx + 1)
      else
        let remaining := remaining - 1
        if remaining ≤ 0 then
          match pyFormat timeoutTemplate
              [toString p.poll_retry, u.name, u.currentState, target] with
          | .error e => (.error (.pyError ("ValueError: " ++ e)), trace, idx + 1)
          | .ok msg => (.error (.failJson msg), trace, idx + 1)
        else pollLoop cb p target u.name remaining (idx + 1) trace fuel

/-- `set_desired_state_or_fail(client, inst, state, module)`.  Returns the
final `inst` on success, or the terminating outcome; also returns the
updated remote-call trace and the next `get_unit` call index. -/
def set_desired_state_or_fail (cb : ClientBehavior) (p : FleetParams)
    (inst : FUnit) (state : String) (idx : Nat) (trace : List RCall) :
    Except ROutcome FUnit × List RCall × Nat :=
  let trace := trace ++ [RCall.setDesiredState inst.name state]
  match cb.setDesiredResp inst.name state with
  | .error c =>
    (.error (.failJson ("could not retrieve unit " ++ inst.name ++ ": " ++ apiErrStr c)),
     trace, idx)
  | .ok target_state =>
    if target_state ≠ state then
      (.error (.failJson ("could not set state to " ++ state ++ " for unit " ++
        inst.name ++ ": currentState=" ++ target_state)), trace, idx)
    else if !p.oneway then
      pollLoop cb p target_state inst.name p.poll_retry idx trace (p.poll_retry.toNat + 1)
    else (.ok inst, trace, idx)

/-- The number of truthy creation sources.  The source first normalises
each parameter with `x or None` and then counts the truthy ones; the
normalisation preserves truthiness, so counting the raw parameters is the
same computation. -/
def specCount (p : FleetParams) : Nat :=
  (if truthyOpts p.options then 1 else 0) + (if truthyS p.src then 1 else 0) +
    (if truthyS p.text then 1 else 0)

/-- `create_unit_or_fail(client, module, name, inst, state)`: validation of
the creation sources, then `fleet.Unit(...)` (whose `IOError` is reported
only when a file path was given, otherwise re-raised), then
`client.create_unit`. -/
def create_unit_or_fail (cb : ClientBehavior) (p : FleetParams)
    (name : Option String) (trace : List RCall) :
    Except ROutcome FUnit × List RCall :=
  let from_file := if truthyS p.src then p.src else none
  let n := specCount p
  if n = 0 ∨ n > 1 then
    (.error (.failJson "one and only of \x7btext, options, from_file\x7d must be specified"),
     trace)
  else
    match cb.unitCtorResp with
    | .error ioe =>
      if truthyS from_file then
        (.error (.failJson ("unable to create unit from_file=" ++ nameStr from_file ++
          ": " ++ ioe)), trace)
      else (.error (.pyError ("IOError: " ++ ioe)), trace)
    | .ok _ =>
      match cb.createResp (nameStr name) with
      | .error c =>
        (.error (.failJson ("could not create unit " ++ nameStr name ++ ": " ++
          apiErrStr c)), trace ++ [RCall.createUnit (nameStr name)])
      | .ok u => (.ok u, trace ++ [RCall.createUnit (nameStr name)])

/-- The `if state in (stopped, restarted)` block of `unit`: absent units
report a message only; a `launched` unit is driven to `inactive`.  Returns
the updated `(inst, changed, idx, trace)` (the message this block computes
is always overwritten by the following block before `exit_json`). -/
def stoppedBlock (cb : ClientBehavior) (p : FleetParams) (inst : Option FUnit)
    (idx : Nat) (trace : List RCall) :
    Except (ROutcome × List RCall) (Option FUnit × Bool × Nat × List RCall) :=
  match inst with
  | none => .ok (none, false, idx, trace)
  | some u =>
    if u.currentState = "launched" then
      match set_desired_state_or_fail cb p u "inactive" idx trace with
      | (.error out, tr, _) => .error (out, tr)
      | (.ok u', tr, idx') => .ok (some u', true, idx', tr)
    else .ok (some u, false, idx, trace)

/-- The `if state in (started, restarted) ... else: assert state == present`
block of `unit`, including the final `exit_json`.  For any state other
than `started`, `restarted` or `present` — in particular for `stopped`,
which always reaches this point — the `assert` fails with an
AssertionError. -/
def startedBlock (cb : ClientBehavior) (p : FleetParams) (inst : Option FUnit)
    (changed : Bool) (idx : Nat) (trace : List RCall) : ROutcome × List RCall :=
  if p.state = "started" ∨ p.state = "restarted" then
    match inst with
    | none =>
      match create_unit_or_fail cb p p.name trace with
      | (.error out, tr) => (out, tr)
      | (.ok _, tr) =>
        (.exitJson true (some ("unit " ++ nameStr p.name ++ " created and started")), tr)
    | some u =>
      if u.currentState ≠ "launched" then
        match set_desired_state_or_fail cb p u "launched" idx trace with
        | (.error out, tr, _) => (out, tr)
        | (.ok _, tr, _) =>
          (.exitJson true (some ("existing unit " ++ nameStr p.name ++ " was started")), tr)
      else
        (.exitJson changed
          (some ("existing unit " ++ nameStr p.name ++ " has already started")), trace)
  else if p.state ≠ "present" then (.pyError "AssertionError", trace)
  else
    match inst with
    | none =>
      match create_unit_or_fail cb p p.name trace with
      | (.error out, tr) => (out, tr)
      | (.ok _, tr) =>
        (.exitJson true (some ("unit " ++ nameStr p.name ++ " created (but not started)")), tr)
    | some u =>
      (.exitJson changed
        (some ("existing unit " ++ nameStr p.name ++ " state unchanged from " ++
          u.currentState)), trace)

/-- `unit(client, module)` of `cloud/coreos/fleet_unit.py`.  Returns the
terminating outcome together with the list of remote client calls made, in
order. -/
def unit (cb : ClientBehavior) (p : FleetParams) : ROutcome × List RCall :=
  if p.state = "absent" then
    if !truthyS p.name then (.failJson "name is required", [])
    else
      let nm := nameStr p.name
      match get_unit cb 0 with
      | .notFound =>
        (.exitJson false (some ("unit did not exist: " ++ nm)), [RCall.getUnit nm])
      | .apiError c =>
        (.failJson ("could not destroy unit " ++ nm ++ ": " ++ apiErrStr c),
         [RCall.getUnit nm])
      | .found _ =>
        match cb.destroyResp nm with
        | .error c =>
          (.failJson ("could not destroy unit " ++ nm ++ ": " ++ apiErrStr c),
           [RCall.getUnit nm, RCall.destroyUnit nm])
        | .ok _ =>
          (.exitJson true (some ("destroyed existing unit " ++ nm)),
           [RCall.getUnit nm, RCall.destroyUnit nm])
  else
    match (if truthyS p.name then
            match get_unit cb 0 with
            | .found u => .ok (some u, 1, [RCall.getUnit (nameStr p.name)])
            | .notFound => .ok (none, 1, [RCall.getUnit (nameStr p.name)])
            | .apiError c =>
              .error ((ROutcome.failJson ("could not retrieve unit " ++
                nameStr p.name ++ ": " ++ apiErrStr c)), [RCall.getUnit (nameStr p.name)])
          else (.ok (none, 0, []) :
            Except (ROutcome × List RCall) (Option FUnit × Nat × List RCall))) with
    | .error out => out
    | .ok (inst, idx, trace) =>
      if p.state = "stopped" ∨ p.state = "restarted" then
        match stoppedBlock cb p inst idx trace with
        | .error (out, tr) => (out, tr)
        | .ok (inst', changed, idx', tr) => startedBlock cb p inst' changed idx' tr
      else startedBlock cb p inst false idx trace

/-! ## Statement-level definitions for the parser claims -/

/-- The data rows of a listing: everything after the header line. -/
def dataRows (output : String) : List String :=
  (pySplitSep '\n' output).tail

/-- The tokens of one machine row (`row.split(None, 3)`). -/
def rowTokens (r : String) : List String :=
  pySplitNone r 3

/-- A row that is not skipped by `if not row: continue`. -/
def properRow (r : String) : Bool :=
  !(rowTokens r).isEmpty

/-- The machine id of a row (first token). -/
def rowId (r : String) : String :=
  (rowTokens r).headD ""

/-- The ip of a row (second token). -/
def rowIp (r : String) : String :=
  (rowTokens r).getD 1 ""

/-- The metadata blob of a row (third token). -/
def rowBlob (r : String) : String :=
  (rowTokens r).getD 2 ""

/-- The key/value pair a metadata segment contributes, if any: segments
without `=` contribute nothing, segments with exactly one `=` contribute
their two halves. -/
def kvPair? (kv : String) : Option (String × String) :=
  if pyContains '=' kv then
    match pySplitSep '=' kv with
    | [k, v] => some (k, v)
    | _ => none
  else none

/-- The metadata pairs of a machine row, in segment order. -/
def rowPairs (r : String) : List (String × String) :=
  if rowBlob r ≠ "" then (pySplitSep ',' (rowBlob r)).filterMap kvPair? else []

/-- The metadata dict a machine row produces. -/
def machMetadata (r : String) : List (String × String) :=
  (rowPairs r).foldl (fun m p => dinsert m p.1 p.2) []

/-- The machine record a proper row produces. -/
def rowRecord (r : String) : MachineData :=
  ⟨rowId r, rowIp r, machMetadata r⟩

/-- No duplicates in a list of strings. -/
def distinctB : List String → Bool
  | [] => true
  | x :: t => !t.contains x && distinctB t

/-- A metadata segment the parser accepts without raising: either no `=`
(skipped) or exactly one `=`. -/
def kvWF (kv : String) : Bool :=
  !pyContains '=' kv || (pySplitSep '=' kv).length == 2

/-- A well-formed machine row: blank (skipped), or exactly three
whitespace-separated tokens whose metadata segments are all acceptable and
whose metadata keys are pairwise distinct. -/
def rowWF (r : String) : Bool :=
  match rowTokens r with
  | [] => true
  | [_, _, _] =>
    ((pySplitSep ',' (rowBlob r)).all kvWF) && distinctB ((rowPairs r).map Prod.fst)
  | _ => false

/-- A well-formed machine listing: at least two newline-separated lines
(header plus data), every data row well-formed, and the machine ids of the
proper data rows pairwise distinct. -/
def machinesWF (output : String) : Bool :=
  (decide (2 ≤ (pySplitSep '\n' output).length)) &&
    (dataRows output).all rowWF &&
    distinctB (((dataRows output).filter properRow).map rowId)

/-- What the machine-listing parser guarantees on well-formed input:
success, exactly one record and one count per proper data row, and every
metadata pair present both in its machine record and in the by-metadata
index under its key and value, mapping the machine id back to the record. -/
def MachineListingOK (output : String) : Prop :=
  ∃ facts, parseListMachines output = .ok facts ∧
    facts.machines.length = (((dataRows output).filter properRow).map rowId).length ∧
    facts.num_machines = some (((dataRows output).filter properRow).map rowId).length ∧
    ∀ r ∈ dataRows output, properRow r = true →
      dget facts.machines (rowId r) = some (rowRecord r) ∧
      ∀ kp ∈ rowPairs r,
        dget (rowRecord r).metadata kp.1 = some kp.2 ∧
        ∃ km vm, dget facts.machines_by_meta kp.1 = some km ∧
          dget km kp.2 = some vm ∧ dget vm (rowId r) = some (rowRecord r)

/-- The fixed lower-cased header of a well-formed unit listing (the column
order `main` requests through `-fields`). -/
def unitsHeader : List String :=
  ["hash", "unit", "load", "active", "sub", "machine"]

/-- The `i`-th token of a unit row (`row.split(None, 7)`). -/
def uTok (i : Nat) (r : String) : String :=
  (pySplitNone r 7).getD i ""

/-- A unit row that is not skipped. -/
def properURow (r : String) : Bool :=
  !(pySplitNone r 7).isEmpty

/-- The normalised unit record a proper six-token row produces under the
fixed header. -/
def udOf (r : String) : UnitData :=
  [("hash", normVal (uTok 0 r)), ("unit", normVal (uTok 1 r)),
   ("load", normVal (uTok 2 r)), ("active", normVal (uTok 3 r)),
   ("sub", normVal (uTok 4 r)), ("machine", normVal (uTok 5 r))]

/-- A well-formed unit row: blank (skipped) or exactly six tokens whose
hash token is neither the `-` sentinel nor empty. -/
def unitRowWF (r : String) : Bool :=
  match pySplitNone r 7 with
  | [] => true
  | [t0, _, _, _, _, _] => !(t0 == "-") && !(t0 == "")
  | _ => false

/-- A well-formed unit listing: a header line whose lower-cased tokens are
exactly the requested columns, well-formed data rows, and pairwise
distinct hashes among the proper rows. -/
def unitsWF (output : String) : Bool :=
  match pySplitSep '\n' output with
  | r0 :: r1 :: rest =>
    ((pySplit r0).map pyLower == unitsHeader) &&
      ((r1 :: rest).all unitRowWF) &&
      distinctB (((r1 :: rest).filter properURow).map (uTok 0))
  | _ => false

/-- What one secondary index guarantees for one row: a `-` (or empty)
token is not indexed at all — the row hash is absent from every bucket —
while any other token indexes the row hash under the token. -/
def FieldOK (b : List (String × List (Option String × UnitData)))
    (tok t0 : String) (ud : UnitData) : Prop :=
  if tok = "-" ∨ tok = "" then ∀ v, dget2 b v (some t0) = none
  else dget2 b tok (some t0) = some ud

/-- What the unit-listing parser guarantees on well-formed input: success,
and for every proper data row a record whose six fields are the
sentinel-normalised tokens, retrievable under its hash, with each of the
four secondary indexes satisfying `FieldOK` for its token. -/
def UnitListingOK (output : String) : Prop :=
  ∃ facts, parseListUnits output = .ok facts ∧
    ∀ r ∈ dataRows output, properURow r = true →
      dget facts.units (some (uTok 0 r)) = some (udOf r) ∧
      dget (udOf r) "hash" = some (normVal (uTok 0 r)) ∧
      dget (udOf r) "unit" = some (normVal (uTok 1 r)) ∧
      dget (udOf r) "load" = some (normVal (uTok 2 r)) ∧
      dget (udOf r) "active" = some (normVal (uTok 3 r)) ∧
      dget (udOf r) "sub" = some (normVal (uTok 4 r)) ∧
      dget (udOf r) "machine" = some (normVal (uTok 5 r)) ∧
      FieldOK facts.by_load (uTok 2 r) (uTok 0 r) (udOf r) ∧
      FieldOK facts.by_active (uTok 3 r) (uTok 0 r) (udOf r) ∧
      FieldOK facts.by_sub (uTok 4 r) (uTok 0 r) (udOf r) ∧
      FieldOK facts.by_machine (uTok 5 r) (uTok 0 r) (udOf r)

/-! ## Proof-side helpers for the parser inductions -/

/-- The pure effect of `ub_add` once the hash is known to be present. -/
def ub_add_pure (b : List (String × List (Option String × UnitData)))
    (v : String) (h : Option String) (ud : UnitData) :
    List (String × List (Option String × UnitData)) :=
  dinsert b v (dinsert ((dget b v).getD []) h ud)

/-- The per-row update of one secondary unit index. -/
def fieldUpd (b : List (String × List (Option String × UnitData)))
    (tok : String) (h : Option String) (ud : UnitData) :
    List (String × List (Option String × UnitData)) :=
  if tok = "-" ∨ tok = "" then b else ub_add_pure b tok h ud

/-! ## Concrete behaviours and parameters for the closed theorems -/

/-- A client on which every `get_unit` reports 404 (unit absent). -/
def cbNotFound : ClientBehavior :=
  ⟨fun _ => .error 404, fun _ _ => .error 500, fun _ => .ok (), fun _ => .error 500, .ok ()⟩

/-- A client whose unit exists and is permanently `inactive`; state
mutations are accepted (the requested state is echoed back). -/
def cbAlwaysInactive : ClientBehavior :=
  ⟨fun _ => .ok ⟨"foo.service", "inactive"⟩, fun _ s => .ok s, fun _ => .ok (),
   fun _ => .error 500, .ok ()⟩

/-- A client whose unit is `launched` on the first fetch and `inactive`
afterwards (a stop that converges on the first poll). -/
def cbLaunchedThenInactive : ClientBehavior :=
  ⟨fun i => if i = 0 then .ok ⟨"foo.service", "launched"⟩ else .ok ⟨"foo.service", "inactive"⟩,
   fun _ s => .ok s, fun _ => .ok (), fun _ => .error 500, .ok ()⟩

/-- A client whose unit exists and is `launched`. -/
def cbLaunched : ClientBehavior :=
  ⟨fun _ => .ok ⟨"foo.service", "launched"⟩, fun _ s => .ok s, fun _ => .ok (),
   fun _ => .error 500, .ok ()⟩

/-- `state=stopped` on `foo.service` with default polling parameters. -/
def pStopped : FleetParams :=
  ⟨"stopped", some "foo.service", none, none, none, false, 10⟩

/-- `state=started` on `foo.service` with inline text, two poll retries. -/
def pStartedText : FleetParams :=
  ⟨"started", some "foo.service", none, some "[Unit]", none, false, 2⟩

/-- `state=started` supplying both inline text and an options list. -/
def pBothSources : FleetParams :=
  ⟨"started", some "foo.service", none, some "[Unit]",
   some [⟨"Service", "ExecStart", "/bin/true"⟩], false, 10⟩

/-- `state=absent` on `foo.service`. -/
def pAbsent : FleetParams :=
  ⟨"absent", some "foo.service", none, none, none, false, 10⟩

/-- `state=present` on `foo.service`. -/
def pPresent : FleetParams :=
  ⟨"present", some "foo.service", none, none, none, false, 10⟩

/-- The per-row effect of the row loop on the `units` dict, folded over a
row list (proof-side restatement of the loop). -/
def uRowsUnits (u0 : List (Option String × UnitData)) (rows : List String) :
    List (Option String × UnitData) :=
  rows.foldl (fun u r => if properURow r then dinsert u (some (uTok 0 r)) (udOf r) else u) u0

/-- The per-row effect of the row loop on the secondary index of the
`i`-th column, folded over a row list. -/
def uRowsField (i : Nat) (b0 : List (String × List (Option String × UnitData)))
    (rows : List String) : List (String × List (Option String × UnitData)) :=
  rows.foldl
    (fun b r => if properURow r then fieldUpd b (uTok i r) (some (uTok 0 r)) (udOf r) else b) b0

/-- A small well-formed machine listing (two data rows, three metadata
pairs) used to witness the machine-listing theorem. -/
def machinesListingExample : String :=
  "MACHINE IP METADATA\nid1 1.1.1.1 k1=v1,k2=v2\nid2 2.2.2.2 k1=v2\n"

/-- A small well-formed unit listing (one fully populated row, one row
with `-` sentinels) used to witness the unit-listing theorem. -/
def unitsListingExample : String :=
  "HASH UNIT LOAD ACTIVE SUB MACHINE\n2783a93 docker-registry.1.service loaded active running 2f1d2afe.../192.168.1.1\nabc1234 other.service - inactive dead -\n"

/-! ## Claim theorems -/

/-- C1.  The claim says a `stopped` reconciliation never aborts with an
assertion or other error.  In the code, `stopped` always falls through to
the `else: assert state == present` arm of the started/restarted
conditional, so every `stopped` invocation that does not `fail_json`
earlier dies with an AssertionError — for an absent unit, for a unit that
is already stopped, and even after successfully stopping a `launched`
unit (third conjunct: the stop converged, `changed` was set, and the
module still crashed instead of exiting). -/
theorem stopped_always_asserts :
    unit cbNotFound pStopped = (.pyError "AssertionError", [.getUnit "foo.service"]) ∧
    unit cbAlwaysInactive pStopped = (.pyError "AssertionError", [.getUnit "foo.service"]) ∧
    unit cbLaunchedThenInactive pStopped =
      (.pyError "AssertionError",
       [.getUnit "foo.service", .setDesiredState "foo.service" "inactive",
        .getUnit "foo.service"]) :=
  ⟨rfl, rfl, rfl⟩

/-- C2.  The claim says `parse_facts` never raises on malformed input.  It
does: a machine data row with fewer than three whitespace-separated tokens
raises IndexError at `row[1]`/`row[2]`, and a metadata segment with more
than one `=` raises ValueError at `k, v = kv.split(=)`. -/
theorem parse_facts_raises_on_malformed :
    parse_facts "list-machines" (CMD_ARGS "list-machines")
      "MACHINE\tIP\tMETADATA\nd2f17670" = .error .indexError ∧
    parse_facts "list-machines" (CMD_ARGS "list-machines")
      "MACHINE\tIP\tMETADATA\nid1 1.1.1.1 a=b=c" = .error .valueError :=
  ⟨rfl, rfl⟩

/-- C3.  The claim (and the docstring example in the source) says the row
`d2f17670 2.2.2.2 ` (no metadata column) parses to a record with empty
metadata.  Python `split(None, 3)` drops the trailing whitespace, the row
has two tokens, and `row[2]` raises IndexError instead. -/
theorem no_metadata_row_raises :
    parse_facts "list-machines" (CMD_ARGS "list-machines")
      "MACHINE        IP        METADATA\nd2f17670 2.2.2.2 " = .error .indexError :=
  rfl

/-- C5.  The claim says a failed convergence wait ends in a
convergence-timeout `fail_json` reporting retries, unit, last observed
state and target.  The timeout message template spells two fields `{1]`
and `{2]`, so `str.format` raises ValueError on the timeout path and the
uncaught exception replaces the intended failure report: starting an
existing `inactive` unit that never converges within `poll_retry = 2`
attempts crashes. -/
theorem poll_timeout_format_raises :
    unit cbAlwaysInactive pStartedText =
      (.pyError "ValueError: unexpected \x7b in field name",
       [.getUnit "foo.service", .setDesiredState "foo.service" "launched",
        .getUnit "foo.service", .getUnit "foo.service"]) :=
  rfl

/-- C4, counterexample.  The claim says supplying more than one creation
source fails validation before any remote call, the unit lookup included.
Reconciling `started` with both inline text and an options list on an
absent unit does report the validation error, but the remote-call trace
already contains the `get_unit` lookup, which therefore preceded
validation. -/
theorem validation_after_lookup_ce :
    unit cbNotFound pBothSources =
      (.failJson "one and only of \x7btext, options, from_file\x7d must be specified",
       [.getUnit "foo.service"]) ∧
    (unit cbNotFound pBothSources).2 ≠ [] :=
  ⟨rfl, by decide⟩

/-- C6, counterexample.  The claim says a header-only or empty listing
yields a machine count of zero.  On the empty listing the `len(rows) > 1`
guard fails and `fleet_num_machines` is never set: the maps are empty and
no error is raised, but the count fact is absent, not `0`. -/
theorem empty_listing_omits_count_ce :
    parseListMachines "" = .ok ⟨[], [], [], none⟩ ∧
    (MachineFacts.num_machines ⟨[], [], [], none⟩ ≠ some 0) :=
  ⟨rfl, by decide⟩

/-- C8.  Reconciling `absent` on a name whose lookup reports 404 exits
with `changed=false` and the informational message, for every client
behaviour and parameter set; the 404 is consumed by the `NotFound`
handler and never surfaced as a failure. -/
theorem absent_on_missing_unit_ok (cb : ClientBehavior) (p : FleetParams) (nm : String)
    (hs : p.state = "absent") (hn : p.name = some nm) (hne : nm ≠ "")
    (hg : cb.getUnitResp 0 = .error 404) :
    unit cb p =
      (.exitJson false (some ("unit did not exist: " ++ nm)), [RCall.getUnit nm]) := by
  simp [unit, hs, hn, truthyS, hne, get_unit, hg, nameStr]

/-- Witness for C8 at `state=absent`, `name=foo.service`, 404 lookup. -/
theorem absent_on_missing_unit_witness :
    unit cbNotFound pAbsent =
      (.exitJson false (some ("unit did not exist: " ++ "foo.service")),
       [RCall.getUnit "foo.service"]) :=
  absent_on_missing_unit_ok cbNotFound pAbsent "foo.service" rfl rfl (by decide) rfl

/-- Helper for C9: one `present` reconciliation of an existing unit exits
with `changed=false`, the state-unchanged message, and a remote-call trace
consisting of the lookup only — no mutating call is issued, whatever the
current state of the unit is. -/
theorem present_on_existing_unchanged (cb : ClientBehavior) (p : FleetParams)
    (nm : String) (u : FUnit)
    (hs : p.state = "present") (hn : p.name = some nm) (hne : nm ≠ "")
    (hg : cb.getUnitResp 0 = .ok u) :
    unit cb p =
      (.exitJson false (some ("existing unit " ++ nm ++ " state unchanged from " ++
        u.currentState)), [RCall.getUnit nm]) := by
  simp [unit, hs, hn, truthyS, hne, get_unit, hg, nameStr, startedBlock]

/-- C9.  Two consecutive `present` reconciliations of an existing unit
both exit with `changed=false`, regardless of the unit state either
invocation observes; each trace is the lookup alone, so the unit state is
left untouched and the second invocation observes an unchanged cluster. -/
theorem present_idempotent (cb cb' : ClientBehavior) (p : FleetParams)
    (nm : String) (u u' : FUnit)
    (hs : p.state = "present") (hn : p.name = some nm) (hne : nm ≠ "")
    (hg : cb.getUnitResp 0 = .ok u) (hg' : cb'.getUnitResp 0 = .ok u') :
    unit cb p =
      (.exitJson false (some ("existing unit " ++ nm ++ " state unchanged from " ++
        u.currentState)), [RCall.getUnit nm]) ∧
    unit cb' p =
      (.exitJson false (some ("existing unit " ++ nm ++ " state unchanged from " ++
        u'.currentState)), [RCall.getUnit nm]) :=
  ⟨present_on_existing_unchanged cb p nm u hs hn hne hg,
   present_on_existing_unchanged cb' p nm u' hs hn hne hg'⟩

/-- Witness for C9: `present` on a `launched` unit and then on an
`inactive` one (the state a unit reaches after an external stop), both
`changed=false`. -/
theorem present_idempotent_witness :
    unit cbLaunched pPresent =
      (.exitJson false (some ("existing unit " ++ "foo.service" ++
        " state unchanged from " ++ "launched")), [RCall.getUnit "foo.service"]) ∧
    unit cbAlwaysInactive pPresent =
      (.exitJson false (some ("existing unit " ++ "foo.service" ++
        " state unchanged from " ++ "inactive")), [RCall.getUnit "foo.service"]) :=
  present_idempotent cbLaunched cbAlwaysInactive pPresent "foo.service"
    ⟨"foo.service", "launched"⟩ ⟨"foo.service", "inactive"⟩ rfl rfl (by decide) rfl rfl

/-- C4, amended.  With the unit absent, a creation-source count other than
one is reported as the validation `fail_json` before the unit object is
constructed and before any create request — but after the existence
lookup, which is the only remote call in the trace. -/
theorem create_validation_before_create (cb : ClientBehavior) (p : FleetParams) (nm : String)
    (hs : p.state = "started" ∨ p.state = "restarted" ∨ p.state = "present")
    (hn : p.name = some nm) (hne : nm ≠ "") (hg : cb.getUnitResp 0 = .error 404)
    (hcnt : specCount p ≠ 1) :
    unit cb p =
      (.failJson "one and only of \x7btext, options, from_file\x7d must be specified",
       [RCall.getUnit nm]) := by
  have hcond : specCount p = 0 ∨ specCount p > 1 := by omega
  rcases hs with hs | hs | hs <;>
    simp [unit, hs, hn, truthyS, hne, get_unit, hg, nameStr, stoppedBlock, startedBlock,
      create_unit_or_fail, hcond]

/-- Witness for the amended C4: `started` with both text and options on an
absent unit. -/
theorem create_validation_witness :
    unit cbNotFound pBothSources =
      (.failJson "one and only of \x7btext, options, from_file\x7d must be specified",
       [RCall.getUnit "foo.service"]) :=
  create_validation_before_create cbNotFound pBothSources "foo.service"
    (Or.inl rfl) rfl (by decide) rfl (by decide)

/-- C10.  Whenever `main` of `cloud/fleet.py` reaches `exit_json`, the
`changed` flag it reports is `true` — for every command (the read-only
`list-machines`/`list-units` included), every unit argument and every
subprocess outcome; the flag is hard-coded and never reflects whether
anything was modified. -/
theorem fleet_cli_always_changed (command : String) (unitArg : Option String)
    (run : Except (Int × String) String) (ch : Bool) (m o : String) (f : FleetFacts)
    (h : fleetMain command unitArg run = .exitJson ch m o f) : ch = true := by
  unfold fleetMain at h
  split at h
  · simp at h
  · split at h
    · simp at h
    · split at h
      · simp at h
      · simp at h
        exact h.1

/-- Witness for C10: a successful `list-machines` with empty output
reports `changed=true`. -/
theorem fleet_cli_always_changed_witness :
    (fleetMain "list-machines" none (.ok "") =
      .exitJson true "OK" "" (.machineFacts ⟨[], [], [], none⟩)) ∧ (true = true) :=
  ⟨rfl, fleet_cli_always_changed "list-machines" none (.ok "") true "OK" ""
    (.machineFacts ⟨[], [], [], none⟩) rfl⟩

/-! ## Dict and index lemmas -/

theorem dget_dinsert_self {κ α : Type} [DecidableEq κ] (d : List (κ × α)) (k : κ) (v : α) :
    dget (dinsert d k v) k = some v := by
  induction d with
  | nil => simp [dinsert, dget]
  | cons p t ih =>
    obtain ⟨k', v'⟩ := p
    by_cases h : k' = k <;> simp [dinsert, dget, h, ih]

theorem dget_dinsert_ne {κ α : Type} [DecidableEq κ] (d : List (κ × α)) (k k' : κ) (v : α)
    (h : k' ≠ k) : dget (dinsert d k v) k' = dget d k' := by
  have h' : k ≠ k' := Ne.symm h
  induction d with
  | nil => simp [dinsert, dget, h']
  | cons p t ih =>
    obtain ⟨k'', v'⟩ := p
    by_cases h2 : k'' = k
    · subst h2
      simp [dinsert, dget, h']
    · simp [dinsert, dget, h2, ih]

theorem dinsert_fresh {κ α : Type} [DecidableEq κ] (d : List (κ × α)) (k : κ) (v : α)
    (h : dget d k = none) : dinsert d k v = d ++ [(k, v)] := by
  induction d with
  | nil => simp [dinsert]
  | cons p t ih =>
    obtain ⟨k', v'⟩ := p
    by_cases h2 : k' = k
    · simp [dget, h2] at h
    · simp [dget, h2] at h
      simp [dinsert, h2, ih h]

theorem dget_append_left {κ α : Type} [DecidableEq κ] (d1 d2 : List (κ × α)) (k : κ) (v : α)
    (h : dget d1 k = some v) : dget (d1 ++ d2) k = some v := by
  induction d1 with
  | nil => simp [dget] at h
  | cons p t ih =>
    obtain ⟨k', v'⟩ := p
    by_cases h2 : k' = k
    · simp [dget, h2] at h ⊢
      exact h
    · simp [dget, h2] at h ⊢
      exact ih h

theorem dget_append_none {κ α : Type} [DecidableEq κ] (d1 d2 : List (κ × α)) (k : κ)
    (h : dget d1 k = none) : dget (d1 ++ d2) k = dget d2 k := by
  induction d1 with
  | nil => simp [dget]
  | cons p t ih =>
    obtain ⟨k', v'⟩ := p
    by_cases h2 : k' = k
    · simp [dget, h2] at h
    · simp [dget, h2] at h ⊢
      exact ih h

theorem contains_false_ne {x : String} {t : List String}
    (h : t.contains x = false) : ∀ y ∈ t, y ≠ x := by
  intro y hy hyx
  subst hyx
  have h2 : t.contains y = true := List.elem_iff.mpr hy
  rw [h2] at h
  cases h

theorem by_meta_add_self (bm : List (String × List (String × List (String × MachineData))))
    (k v : String) (md : MachineData) :
    dget3 (by_meta_add bm k v md) k v md.id = some md := by
  simp [by_meta_add, dget3, dget2, dget_dinsert_self]

theorem by_meta_add_other (bm : List (String × List (String × List (String × MachineData))))
    (k v k' v' i : String) (md : MachineData) (h : i ≠ md.id) :
    dget3 (by_meta_add bm k v md) k' v' i = dget3 bm k' v' i := by
  by_cases hk : k' = k
  · subst hk
    by_cases hv : v' = v
    · subst hv
      simp only [by_meta_add, dget3, dget2, dget_dinsert_self, Option.some_bind]
      rw [dget_dinsert_ne _ _ _ _ h]
      cases hbm : dget bm k' with
      | none => simp [dget]
      | some km =>
        simp only [Option.getD_some, Option.some_bind]
        cases hkm : dget km v' with
        | none => simp [dget]
        | some vm => simp
    · simp only [by_meta_add, dget3, dget2, dget_dinsert_self, Option.some_bind]
      rw [dget_dinsert_ne _ _ _ _ hv]
      cases hbm : dget bm k' with
      | none => simp [dget]
      | some km => simp
  · simp only [by_meta_add, dget3]
    rw [dget_dinsert_ne _ _ _ _ hk]

theorem by_meta_add_own (bm : List (String × List (String × List (String × MachineData))))
    (k v k' v' : String) (md : MachineData) (h : dget3 bm k' v' md.id = some md) :
    dget3 (by_meta_add bm k v md) k' v' md.id = some md := by
  by_cases hk : k' = k
  · subst hk
    by_cases hv : v' = v
    · subst hv
      exact by_meta_add_self bm k' v' md
    · cases hbm : dget bm k' with
      | none => simp [dget3, hbm] at h
      | some km =>
        simp only [dget3, dget2, hbm, Option.getD_some, Option.some_bind] at h
        simp only [by_meta_add, dget3, dget2, hbm, Option.getD_some,
          dget_dinsert_self, Option.some_bind]
        rw [dget_dinsert_ne _ _ _ _ hv]
        exact h
  · simp only [by_meta_add, dget3]
    rw [dget_dinsert_ne _ _ _ _ hk]
    exact h

theorem foldl_by_meta_add_own (pairs : List (String × String))
    (bm : List (String × List (String × List (String × MachineData))))
    (md : MachineData) (k' v' : String) (h : dget3 bm k' v' md.id = some md) :
    dget3 (pairs.foldl (fun b p => by_meta_add b p.1 p.2 md) bm) k' v' md.id = some md := by
  induction pairs generalizing bm with
  | nil => exact h
  | cons p ps ih => exact ih _ (by_meta_add_own bm p.1 p.2 k' v' md h)

theorem foldl_by_meta_add_self (pairs : List (String × String))
    (bm : List (String × List (String × List (String × MachineData))))
    (md : MachineData) :
    ∀ kp ∈ pairs, dget3 (pairs.foldl (fun b p => by_meta_add b p.1 p.2 md) bm)
      kp.1 kp.2 md.id = some md := by
  induction pairs generalizing bm with
  | nil => intro kp hkp; cases hkp
  | cons p ps ih =>
    intro kp hkp
    rcases List.mem_cons.mp hkp with hkp | hkp
    · subst hkp
      exact foldl_by_meta_add_own ps _ md kp.1 kp.2 (by_meta_add_self bm kp.1 kp.2 md)
    · exact ih _ kp hkp

theorem foldl_by_meta_add_other (pairs : List (String × String))
    (bm : List (String × List (String × List (String × MachineData))))
    (md : MachineData) (k v i : String) (h : i ≠ md.id) :
    dget3 (pairs.foldl (fun b p => by_meta_add b p.1 p.2 md) bm) k v i =
      dget3 bm k v i := by
  induction pairs generalizing bm with
  | nil => rfl
  | cons p ps ih => rw [List.foldl_cons, ih, by_meta_add_other _ _ _ _ _ _ _ h]

theorem parseKVs_eq (segs : List String) (h : segs.all kvWF = true) :
    parseKVs segs = .ok (segs.filterMap kvPair?) := by
  induction segs with
  | nil => rfl
  | cons kv t ih =>
    rw [List.all_cons, Bool.and_eq_true] at h
    obtain ⟨h1, h2⟩ := h
    by_cases hc : pyContains '=' kv
    · have hl : (pySplitSep '=' kv).length = 2 := by
        unfold kvWF at h1
        rw [hc] at h1
        simpa using h1
      rcases hsp : pySplitSep '=' kv with _ | ⟨a, _ | ⟨b, _ | ⟨c, t3⟩⟩⟩ <;>
        rw [hsp] at hl <;> simp at hl
      simp [parseKVs, kvPair?, hc, hsp, List.filterMap_cons, ih h2]
    · simp [parseKVs, kvPair?, hc, List.filterMap_cons, ih h2]

theorem rowWF_proper_tokens (r : String) (hWF : rowWF r = true) (hp : properRow r = true) :
    rowTokens r = [rowId r, rowIp r, rowBlob r] ∧
    (pySplitSep ',' (rowBlob r)).all kvWF = true ∧
    distinctB ((rowPairs r).map Prod.fst) = true := by
  unfold rowWF at hWF
  unfold properRow at hp
  rcases htk : rowTokens r with _ | ⟨a, _ | ⟨b, _ | ⟨c, _ | _⟩⟩⟩ <;> rw [htk] at hWF hp <;>
    simp at hWF hp
  simp [rowId, rowIp, rowBlob, htk] at hWF ⊢
  exact hWF

theorem machRow_skip (acc : MachineFacts) (r : String) (hp : properRow r = false) :
    machRow acc r = .ok acc := by
  unfold machRow
  unfold properRow at hp
  rcases htk : rowTokens r with _ | _
  · rw [show pySplitNone r 3 = rowTokens r from rfl, htk]
  · rw [htk] at hp
    simp at hp

theorem machRow_proper (acc : MachineFacts) (r : String)
    (hWF : rowWF r = true) (hp : properRow r = true) :
    machRow acc r = .ok ⟨dinsert acc.machines (rowId r) (rowRecord r),
      (if rowIp r ≠ "" then by_ip_add acc.machines_by_ip (rowIp r) (rowRecord r)
       else acc.machines_by_ip),
      (rowPairs r).foldl (fun b p => by_meta_add b p.1 p.2 (rowRecord r))
        acc.machines_by_meta,
      acc.num_machines⟩ := by
  obtain ⟨htk, hall, _⟩ := rowWF_proper_tokens r hWF hp
  unfold machRow
  rw [show pySplitNone r 3 = rowTokens r from rfl, htk]
  by_cases hb : rowBlob r = ""
  · simp only [hb, ne_eq, not_true_eq_false, if_false, reduceIte]
    simp [rowRecord, machMetadata, rowPairs, hb]
  · simp only [ne_eq, hb, not_false_eq_true, if_true, reduceIte]
    rw [parseKVs_eq _ hall]
    simp [rowRecord, machMetadata, rowPairs, hb]

theorem machRows_spec (rows : List String) :
    ∀ acc : MachineFacts,
    (∀ r ∈ rows, rowWF r = true) →
    distinctB ((rows.filter properRow).map rowId) = true →
    (∀ r ∈ rows, properRow r = true → dget acc.machines (rowId r) = none) →
    ∃ acc', machRows acc rows = .ok acc' ∧
      acc'.machines = acc.machines ++
        (rows.filter properRow).map (fun r => (rowId r, rowRecord r)) ∧
      acc'.num_machines = acc.num_machines ∧
      (∀ k v i, (((rows.filter properRow).map rowId).contains i) = false →
        dget3 acc'.machines_by_meta k v i = dget3 acc.machines_by_meta k v i) ∧
      (∀ r ∈ rows, properRow r = true → ∀ kp ∈ rowPairs r,
        dget3 acc'.machines_by_meta kp.1 kp.2 (rowId r) = some (rowRecord r)) := by
  induction rows with
  | nil =>
    intro acc _ _ _
    exact ⟨acc, rfl, by simp, rfl, fun _ _ _ _ => rfl, by simp⟩
  | cons r rs ih =>
    intro acc hWF hdis hfresh
    by_cases hp : properRow r = true
    · have hfilter : (r :: rs).filter properRow = r :: rs.filter properRow := by
        simp [List.filter_cons, hp]
      rw [hfilter, List.map_cons] at hdis
      unfold distinctB at hdis
      rw [Bool.and_eq_true, Bool.not_eq_true'] at hdis
      obtain ⟨hnotin, hdis'⟩ := hdis
      have hrow := machRow_proper acc r (hWF r (by simp)) hp
      have hfresh1 : ∀ r' ∈ rs, properRow r' = true →
          dget (dinsert acc.machines (rowId r) (rowRecord r)) (rowId r') = none := by
        intro r' hr' hpr'
        have hne : rowId r' ≠ rowId r := by
          apply contains_false_ne hnotin
          exact List.mem_map_of_mem rowId (List.mem_filter.mpr ⟨hr', hpr'⟩)
        rw [dget_dinsert_ne _ _ _ _ hne]
        exact hfresh r' (by simp [hr']) hpr'
      obtain ⟨acc', hrun, hmach, hnum, hpres, hcont⟩ :=
        ih ⟨dinsert acc.machines (rowId r) (rowRecord r),
          (if rowIp r ≠ "" then by_ip_add acc.machines_by_ip (rowIp r) (rowRecord r)
           else acc.machines_by_ip),
          (rowPairs r).foldl (fun b p => by_meta_add b p.1 p.2 (rowRecord r))
            acc.machines_by_meta,
          acc.num_machines⟩
          (fun x hx => hWF x (by simp [hx])) hdis' hfresh1
      refine ⟨acc', ?_, ?_, ?_, ?_, ?_⟩
      · unfold machRows
        rw [hrow]
        exact hrun
      · rw [hmach, hfilter, List.map_cons]
        have hfr : dinsert acc.machines (rowId r) (rowRecord r) =
            acc.machines ++ [(rowId r, rowRecord r)] :=
          dinsert_fresh _ _ _ (hfresh r (by simp) hp)
        simp [hfr]
      · exact hnum
      · intro k v i hi
        rw [hfilter, List.map_cons] at hi
        rw [List.contains_cons, Bool.or_eq_false_iff] at hi
        rw [hpres k v i hi.2]
        apply foldl_by_meta_add_other
        intro heq
        rw [heq] at hi
        simp [rowRecord] at hi
      · intro r0 hr0 hp0 kp hkp
        rcases List.mem_cons.mp hr0 with h0 | h0
        · subst h0
          have hstep :
              dget3 ((rowPairs r0).foldl (fun b p => by_meta_add b p.1 p.2 (rowRecord r0))
                acc.machines_by_meta) kp.1 kp.2 (rowId r0) = some (rowRecord r0) := by
            have hh := foldl_by_meta_add_self (rowPairs r0) acc.machines_by_meta
              (rowRecord r0) kp hkp
            simpa [rowRecord] using hh
          rw [hpres kp.1 kp.2 (rowId r0) ?_]
          · exact hstep
          · by_contra hcc
            rw [Bool.not_eq_false] at hcc
            have hmem := List.elem_iff.mp hcc
            obtain ⟨r1, hr1, hid1⟩ := List.mem_map.mp hmem
            have h1 := List.mem_filter.mp hr1
            have : r1 ≠ r0 ∨ r1 = r0 := (ne_or_eq r1 r0)
            have : rowId r0 ∈ (rs.filter properRow).map rowId := hmem
            exact absurd this (by
              intro hmm
              have := contains_false_ne hnotin (rowId r0) hmm
              exact this rfl)
        · exact hcont r0 h0 hp0 kp hkp
    · rw [Bool.not_eq_true] at hp
      have hskip := machRow_skip acc r hp
      have hfilter : (r :: rs).filter properRow = rs.filter properRow := by
        simp [List.filter_cons, hp]
      rw [hfilter] at hdis
      obtain ⟨acc', hrun, hmach, hnum, hpres, hcont⟩ :=
        ih acc (fun x hx => hWF x (by simp [hx])) hdis
          (fun r' hr' hpr' => hfresh r' (by simp [hr']) hpr')
      refine ⟨acc', ?_, ?_, hnum, ?_, ?_⟩
      · unfold machRows
        rw [hskip]
        exact hrun
      · rw [hmach, hfilter]
      · intro k v i hi
        rw [hfilter] at hi
        exact hpres k v i hi
      · intro r0 hr0 hp0 kp hkp
        rcases List.mem_cons.mp hr0 with h0 | h0
        · subst h0
          rw [hp0] at hp
          cases hp
        · exact hcont r0 h0 hp0 kp hkp

theorem dget_map_records (l : List String) (hdis : distinctB (l.map rowId) = true) :
    ∀ r ∈ l, dget (l.map fun x => (rowId x, rowRecord x)) (rowId r) = some (rowRecord r) := by
  induction l with
  | nil => intro r hr; cases hr
  | cons x t iht =>
    rw [List.map_cons] at hdis
    unfold distinctB at hdis
    rw [Bool.and_eq_true, Bool.not_eq_true'] at hdis
    obtain ⟨hnotin, hdis'⟩ := hdis
    intro r hr
    rcases List.mem_cons.mp hr with h0 | h0
    · subst h0
      simp [dget]
    · have hne : rowId x ≠ rowId r := by
        intro heq
        have := contains_false_ne hnotin (rowId r) (List.mem_map_of_mem rowId h0)
        exact this heq.symm
      simp only [List.map_cons, dget, hne, if_false, reduceIte]
      exact iht hdis' r h0

theorem foldl_dinsert_notmem (pairs : List (String × String)) (m : List (String × String))
    (k : String) (h : (pairs.map Prod.fst).contains k = false) :
    dget (pairs.foldl (fun m p => dinsert m p.1 p.2) m) k = dget m k := by
  induction pairs generalizing m with
  | nil => rfl
  | cons p ps ih =>
    rw [List.map_cons, List.contains_cons, Bool.or_eq_false_iff] at h
    rw [List.foldl_cons, ih _ h.2, dget_dinsert_ne]
    intro heq
    rw [heq] at h
    simp at h

theorem dget_foldl_pairs (pairs : List (String × String)) (m : List (String × String))
    (hdis : distinctB (pairs.map Prod.fst) = true) :
    ∀ kp ∈ pairs, dget (pairs.foldl (fun m p => dinsert m p.1 p.2) m) kp.1 = some kp.2 := by
  induction pairs generalizing m with
  | nil => intro kp hkp; cases hkp
  | cons p ps ih =>
    rw [List.map_cons] at hdis
    unfold distinctB at hdis
    rw [Bool.and_eq_true, Bool.not_eq_true'] at hdis
    obtain ⟨hnotin, hdis'⟩ := hdis
    intro kp hkp
    rcases List.mem_cons.mp hkp with h0 | h0
    · subst h0
      rw [List.foldl_cons, foldl_dinsert_notmem _ _ _ hnotin, dget_dinsert_self]
    · exact ih _ hdis' kp h0

theorem dget3_some_destruct {d : List (String × List (String × List (String × MachineData)))}
    {k1 k2 k3 : String} {x : MachineData} (h : dget3 d k1 k2 k3 = some x) :
    ∃ km vm, dget d k1 = some km ∧ dget km k2 = some vm ∧ dget vm k3 = some x := by
  cases h1 : dget d k1 with
  | none => simp [dget3, h1] at h
  | some km =>
    cases h2 : dget km k2 with
    | none => simp [dget3, dget2, h1, h2] at h
    | some vm =>
      simp only [dget3, dget2, h1, h2, Option.some_bind] at h
      exact ⟨km, vm, rfl, h2, h⟩

/-- C6, amended.  For every well-formed machine listing (at least two
lines, well-formed data rows, distinct ids) the parser succeeds, produces
exactly one record per proper data row, sets `fleet_num_machines` to that
count (so a header followed by a terminating newline gives 0), and every
metadata pair of a row is present both in that machine record and in the
by-metadata index under its key and value.  (For an empty or single-line
listing the count fact is omitted — see the counterexample.) -/
theorem machine_listing_parser_ok (output : String) (hWF : machinesWF output = true) :
    MachineListingOK output := by
  unfold machinesWF at hWF
  rw [Bool.and_eq_true, Bool.and_eq_true] at hWF
  obtain ⟨⟨hlen, hall⟩, hdis⟩ := hWF
  rcases hrows : pySplitSep '\n' output with _ | ⟨r0, _ | ⟨r1, rest⟩⟩
  · rw [hrows] at hlen
    simp at hlen
  · rw [hrows] at hlen
    simp at hlen
  have hdata : dataRows output = r1 :: rest := by
    simp [dataRows, hrows]
  rw [hdata] at hall hdis
  have hallf : ∀ r ∈ r1 :: rest, rowWF r = true := List.all_eq_true.mp hall
  obtain ⟨acc', hrun, hmach, hnum, hpres, hcont⟩ :=
    machRows_spec (r1 :: rest) ⟨[], [], [], none⟩ hallf hdis (fun _ _ _ => rfl)
  rw [List.nil_append] at hmach
  refine ⟨{acc' with num_machines := some acc'.machines.length}, ?_, ?_, ?_, ?_⟩
  · simp only [parseListMachines, hrows, hrun]
  · simp [hmach, hdata]
  · simp [hmach, hdata]
  · intro r hr hpr
    rw [hdata] at hr
    have hWFr := hallf r hr
    obtain ⟨_, _, hkeys⟩ := rowWF_proper_tokens r hWFr hpr
    constructor
    · show dget acc'.machines (rowId r) = some (rowRecord r)
      rw [hmach]
      exact dget_map_records _ hdis r (List.mem_filter.mpr ⟨hr, hpr⟩)
    · intro kp hkp
      refine ⟨?_, ?_⟩
      · show dget (machMetadata r) kp.1 = some kp.2
        exact dget_foldl_pairs _ [] hkeys kp hkp
      · exact dget3_some_destruct (hcont r hr hpr kp hkp)

/-- Witness for C6: a listing with two data rows and three metadata
pairs. -/
theorem machine_listing_parser_ok_witness :
    machinesWF machinesListingExample = true ∧ MachineListingOK machinesListingExample :=
  ⟨by decide, machine_listing_parser_ok machinesListingExample (by decide)⟩

theorem unitRow_skip (header : List String) (acc : UnitFacts) (r : String)
    (hp : properURow r = false) : unitRow header acc r = .ok acc := by
  unfold unitRow
  unfold properURow at hp
  rcases h : pySplitNone r 7 with _ | _
  · rfl
  · rw [h] at hp
    simp at hp

theorem unitRowWF_proper_tokens (r : String) (hWF : unitRowWF r = true)
    (hp : properURow r = true) :
    pySplitNone r 7 = [uTok 0 r, uTok 1 r, uTok 2 r, uTok 3 r, uTok 4 r, uTok 5 r] ∧
    uTok 0 r ≠ "-" ∧ uTok 0 r ≠ "" := by
  unfold unitRowWF at hWF
  unfold properURow at hp
  rcases h : pySplitNone r 7 with
    _ | ⟨a0, _ | ⟨a1, _ | ⟨a2, _ | ⟨a3, _ | ⟨a4, _ | ⟨a5, _ | _⟩⟩⟩⟩⟩⟩ <;>
      rw [h] at hWF hp <;> simp at hWF hp
  simp [uTok, h, hWF]

theorem unitRowField_eq (ud : UnitData)
    (b : List (String × List (Option String × UnitData))) (fname tok : String)
    (h0 : Option String) (hget : dget ud fname = some (normVal tok))
    (hhash : dget ud "hash" = some h0) :
    unitRowField ud b fname = .ok (fieldUpd b tok h0 ud) := by
  unfold unitRowField fieldUpd ub_add ub_add_pure
  rw [hget]
  by_cases ht : tok = "-" ∨ tok = ""
  · have hn : normVal tok = none := by simp [normVal, ht]
    rw [hn]
    simp [ht]
  · have hne := not_or.mp ht
    have hn : normVal tok = some tok := by simp [normVal, ht]
    rw [hn]
    simp [hne.1, hne.2, hhash, ht]

theorem unitRow_proper (acc : UnitFacts) (r : String)
    (h6 : pySplitNone r 7 = [uTok 0 r, uTok 1 r, uTok 2 r, uTok 3 r, uTok 4 r, uTok 5 r])
    (h0d : uTok 0 r ≠ "-") (h0e : uTok 0 r ≠ "") :
    unitRow unitsHeader acc r = .ok ⟨dinsert acc.units (some (uTok 0 r)) (udOf r),
      fieldUpd acc.by_load (uTok 2 r) (some (uTok 0 r)) (udOf r),
      fieldUpd acc.by_active (uTok 3 r) (some (uTok 0 r)) (udOf r),
      fieldUpd acc.by_sub (uTok 4 r) (some (uTok 0 r)) (udOf r),
      fieldUpd acc.by_machine (uTok 5 r) (some (uTok 0 r)) (udOf r),
      acc.num_units⟩ := by
  have hn0 : normVal (uTok 0 r) = some (uTok 0 r) := by
    simp [normVal, h0d, h0e]
  have hhash : dget (udOf r) "hash" = some (some (uTok 0 r)) := by
    rw [show dget (udOf r) "hash" = some (normVal (uTok 0 r)) from rfl, hn0]
  have hud : ((unitsHeader.zip
      [uTok 0 r, uTok 1 r, uTok 2 r, uTok 3 r, uTok 4 r, uTok 5 r]).foldl
      (fun m p => dinsert m p.1 p.2) []).map (fun p => (p.1, normVal p.2)) = udOf r := rfl
  simp only [unitRow, h6, hud,
    unitRowField_eq (udOf r) acc.by_load "load" (uTok 2 r) (some (uTok 0 r)) rfl hhash,
    unitRowField_eq (udOf r) acc.by_active "active" (uTok 3 r) (some (uTok 0 r)) rfl hhash,
    unitRowField_eq (udOf r) acc.by_sub "sub" (uTok 4 r) (some (uTok 0 r)) rfl hhash,
    unitRowField_eq (udOf r) acc.by_machine "machine" (uTok 5 r) (some (uTok 0 r)) rfl hhash,
    hhash]

theorem unitRows_decomp (rows : List String) : ∀ acc : UnitFacts,
    (∀ r ∈ rows, unitRowWF r = true) →
    unitRows unitsHeader acc rows = .ok ⟨uRowsUnits acc.units rows,
      uRowsField 2 acc.by_load rows, uRowsField 3 acc.by_active rows,
      uRowsField 4 acc.by_sub rows, uRowsField 5 acc.by_machine rows, acc.num_units⟩ := by
  induction rows with
  | nil => intro acc _; rfl
  | cons r rs ih =>
    intro acc hWF
    by_cases hp : properURow r = true
    · obtain ⟨h6, h0d, h0e⟩ := unitRowWF_proper_tokens r (hWF r (by simp)) hp
      have hrow := unitRow_proper acc r h6 h0d h0e
      unfold unitRows
      rw [hrow]
      exact (ih ⟨dinsert acc.units (some (uTok 0 r)) (udOf r),
        fieldUpd acc.by_load (uTok 2 r) (some (uTok 0 r)) (udOf r),
        fieldUpd acc.by_active (uTok 3 r) (some (uTok 0 r)) (udOf r),
        fieldUpd acc.by_sub (uTok 4 r) (some (uTok 0 r)) (udOf r),
        fieldUpd acc.by_machine (uTok 5 r) (some (uTok 0 r)) (udOf r),
        acc.num_units⟩ (fun x hx => hWF x (by simp [hx]))).trans
        (by simp [uRowsUnits, uRowsField, hp])
    · rw [Bool.not_eq_true] at hp
      have hrow := unitRow_skip unitsHeader acc r hp
      unfold unitRows
      rw [hrow]
      exact (ih acc (fun x hx => hWF x (by simp [hx]))).trans
        (by simp [uRowsUnits, uRowsField, hp])

theorem ub_pure_self (b : List (String × List (Option String × UnitData)))
    (v : String) (h : Option String) (ud : UnitData) :
    dget2 (ub_add_pure b v h ud) v h = some ud := by
  simp [ub_add_pure, dget2, dget_dinsert_self]

theorem ub_pure_other (b : List (String × List (Option String × UnitData)))
    (v' : String) (h' : Option String) (ud' : UnitData) (v : String) (h : Option String)
    (hne : h ≠ h') : dget2 (ub_add_pure b v' h' ud') v h = dget2 b v h := by
  by_cases hv : v = v'
  · subst hv
    simp only [ub_add_pure, dget2, dget_dinsert_self, Option.some_bind]
    rw [dget_dinsert_ne _ _ _ _ hne]
    cases hb : dget b v with
    | none => simp [dget]
    | some bb => simp
  · have hv' : v ≠ v' := hv
    simp only [ub_add_pure, dget2]
    rw [dget_dinsert_ne _ _ _ _ hv']

theorem ub_pure_mem (b : List (String × List (Option String × UnitData)))
    (v' : String) (h' : Option String) (ud' : UnitData) (v : String) (h : Option String)
    (hmem : dget2 (ub_add_pure b v' h' ud') v h ≠ none) :
    h = h' ∨ dget2 b v h ≠ none := by
  by_cases hh : h = h'
  · exact Or.inl hh
  · rw [ub_pure_other _ _ _ _ _ _ hh] at hmem
    exact Or.inr hmem

theorem fieldUpd_other (b : List (String × List (Option String × UnitData)))
    (tok : String) (h' : Option String) (ud' : UnitData) (v : String) (h : Option String)
    (hne : h ≠ h') : dget2 (fieldUpd b tok h' ud') v h = dget2 b v h := by
  unfold fieldUpd
  by_cases ht : tok = "-" ∨ tok = ""
  · simp [ht]
  · simp only [ht, if_false, reduceIte]
    exact ub_pure_other b tok h' ud' v h hne

theorem fieldUpd_mem (b : List (String × List (Option String × UnitData)))
    (tok : String) (h' : Option String) (ud' : UnitData) (v : String) (h : Option String)
    (hget : dget2 (fieldUpd b tok h' ud') v h ≠ none) :
    (h = h' ∧ ¬(tok = "-" ∨ tok = "")) ∨ dget2 b v h ≠ none := by
  unfold fieldUpd at hget
  by_cases ht : tok = "-" ∨ tok = ""
  · rw [if_pos ht] at hget
    exact Or.inr hget
  · rw [if_neg ht] at hget
    rcases ub_pure_mem b tok h' ud' v h hget with hh | hh
    · exact Or.inl ⟨hh, ht⟩
    · exact Or.inr hh

theorem distinctB_map_inj {f : String → String} {l : List String}
    (hdis : distinctB (l.map f) = true) :
    ∀ x ∈ l, ∀ y ∈ l, f x = f y → x = y := by
  induction l with
  | nil => intro x hx; cases hx
  | cons a t ih =>
    rw [List.map_cons] at hdis
    unfold distinctB at hdis
    rw [Bool.and_eq_true, Bool.not_eq_true'] at hdis
    obtain ⟨hnotin, hdis'⟩ := hdis
    intro x hx y hy hfxy
    rcases List.mem_cons.mp hx with hx0 | hx0 <;> rcases List.mem_cons.mp hy with hy0 | hy0
    · rw [hx0, hy0]
    · subst hx0
      exact absurd hfxy.symm
        (contains_false_ne hnotin (f y) (List.mem_map_of_mem f hy0))
    · subst hy0
      exact absurd hfxy
        (contains_false_ne hnotin (f x) (List.mem_map_of_mem f hx0))
    · exact ih hdis' x hx0 y hy0 hfxy

theorem uRowsField_other (i : Nat) (rows : List String) :
    ∀ (b0 : List (String × List (Option String × UnitData))) (v : String) (h : Option String),
    (∀ r ∈ rows, properURow r = true → h ≠ some (uTok 0 r)) →
    dget2 (uRowsField i b0 rows) v h = dget2 b0 v h := by
  induction rows with
  | nil => intro b0 v h _; rfl
  | cons r rs ih =>
    intro b0 v h hnot
    unfold uRowsField
    rw [List.foldl_cons]
    by_cases hp : properURow r = true
    · rw [if_pos hp]
      rw [show List.foldl _ (fieldUpd b0 (uTok i r) (some (uTok 0 r)) (udOf r)) rs =
        uRowsField i (fieldUpd b0 (uTok i r) (some (uTok 0 r)) (udOf r)) rs from rfl]
      rw [ih _ v h (fun x hx hpx => hnot x (by simp [hx]) hpx)]
      exact fieldUpd_other _ _ _ _ _ _ (hnot r (by simp) hp)
    · rw [if_neg hp]
      exact ih _ v h (fun x hx hpx => hnot x (by simp [hx]) hpx)

theorem uRowsField_content (i : Nat) (rows : List String) :
    ∀ (b0 : List (String × List (Option String × UnitData))),
    distinctB ((rows.filter properURow).map (uTok 0)) = true →
    ∀ r ∈ rows, properURow r = true → ¬(uTok i r = "-" ∨ uTok i r = "") →
    dget2 (uRowsField i b0 rows) (uTok i r) (some (uTok 0 r)) = some (udOf r) := by
  induction rows with
  | nil => intro b0 _ r hr; cases hr
  | cons r0 rs ih =>
    intro b0 hdis r hr hpr htok
    by_cases hp0 : properURow r0 = true
    · have hfilter : (r0 :: rs).filter properURow = r0 :: rs.filter properURow := by
        simp [List.filter_cons, hp0]
      rw [hfilter, List.map_cons] at hdis
      unfold distinctB at hdis
      rw [Bool.and_eq_true, Bool.not_eq_true'] at hdis
      obtain ⟨hnotin, hdis'⟩ := hdis
      unfold uRowsField
      rw [List.foldl_cons, if_pos hp0]
      rw [show List.foldl _ (fieldUpd b0 (uTok i r0) (some (uTok 0 r0)) (udOf r0)) rs =
        uRowsField i (fieldUpd b0 (uTok i r0) (some (uTok 0 r0)) (udOf r0)) rs from rfl]
      rcases List.mem_cons.mp hr with h0 | h0
      · subst h0
        rw [uRowsField_other i rs _ _ _ ?_]
        · unfold fieldUpd
          rw [if_neg htok]
          exact ub_pure_self _ _ _ _
        · intro x hx hpx heq
          have hmem : uTok 0 x ∈ (rs.filter properURow).map (uTok 0) :=
            List.mem_map_of_mem (uTok 0) (List.mem_filter.mpr ⟨hx, hpx⟩)
          rw [show uTok 0 x = uTok 0 r from (Option.some_injective _ heq).symm] at hmem
          exact contains_false_ne hnotin (uTok 0 r) hmem rfl
      · exact ih _ hdis' r h0 hpr htok
    · rw [Bool.not_eq_true] at hp0
      have hfilter : (r0 :: rs).filter properURow = rs.filter properURow := by
        simp [List.filter_cons, hp0]
      rw [hfilter] at hdis
      unfold uRowsField
      rw [List.foldl_cons, if_neg (by rw [hp0]; exact Bool.false_ne_true)]
      rcases List.mem_cons.mp hr with h0 | h0
      · subst h0
        rw [hpr] at hp0
        cases hp0
      · exact ih b0 hdis r h0 hpr htok

theorem uRowsField_mem (i : Nat) (rows : List String) :
    ∀ (b0 : List (String × List (Option String × UnitData))) (v : String) (h : Option String),
    dget2 (uRowsField i b0 rows) v h ≠ none →
    dget2 b0 v h ≠ none ∨ ∃ r, r ∈ rows ∧ properURow r = true ∧ h = some (uTok 0 r) ∧
      ¬(uTok i r = "-" ∨ uTok i r = "") := by
  induction rows with
  | nil => intro b0 v h hget; exact Or.inl hget
  | cons r0 rs ih =>
    intro b0 v h hget
    unfold uRowsField at hget
    rw [List.foldl_cons] at hget
    by_cases hp0 : properURow r0 = true
    · rw [if_pos hp0] at hget
      rw [show List.foldl _ (fieldUpd b0 (uTok i r0) (some (uTok 0 r0)) (udOf r0)) rs =
        uRowsField i (fieldUpd b0 (uTok i r0) (some (uTok 0 r0)) (udOf r0)) rs from rfl] at hget
      rcases ih _ v h hget with h1 | ⟨r, hr, hpr, hh, ht⟩
      · rcases fieldUpd_mem _ _ _ _ _ _ h1 with ⟨hh, ht⟩ | h2
        · exact Or.inr ⟨r0, by simp, hp0, hh, ht⟩
        · exact Or.inl h2
      · exact Or.inr ⟨r, by simp [hr], hpr, hh, ht⟩
    · rw [if_neg hp0] at hget
      rcases ih b0 v h hget with h1 | ⟨r, hr, hpr, hh, ht⟩
      · exact Or.inl h1
      · exact Or.inr ⟨r, by simp [hr], hpr, hh, ht⟩

theorem uRowsUnits_other (rows : List String) :
    ∀ (u0 : List (Option String × UnitData)) (h : Option String),
    (∀ r ∈ rows, properURow r = true → h ≠ some (uTok 0 r)) →
    dget (uRowsUnits u0 rows) h = dget u0 h := by
  induction rows with
  | nil => intro u0 h _; rfl
  | cons r rs ih =>
    intro u0 h hnot
    unfold uRowsUnits
    rw [List.foldl_cons]
    by_cases hp : properURow r = true
    · rw [if_pos hp]
      rw [show List.foldl _ (dinsert u0 (some (uTok 0 r)) (udOf r)) rs =
        uRowsUnits (dinsert u0 (some (uTok 0 r)) (udOf r)) rs from rfl]
      rw [ih _ h (fun x hx hpx => hnot x (by simp [hx]) hpx)]
      exact dget_dinsert_ne _ _ _ _ (hnot r (by simp) hp)
    · rw [if_neg hp]
      exact ih _ h (fun x hx hpx => hnot x (by simp [hx]) hpx)

theorem uRowsUnits_lookup (rows : List String) :
    ∀ (u0 : List (Option String × UnitData)),
    distinctB ((rows.filter properURow).map (uTok 0)) = true →
    ∀ r ∈ rows, properURow r = true →
    dget (uRowsUnits u0 rows) (some (uTok 0 r)) = some (udOf r) := by
  induction rows with
  | nil => intro u0 _ r hr; cases hr
  | cons r0 rs ih =>
    intro u0 hdis r hr hpr
    by_cases hp0 : properURow r0 = true
    · have hfilter : (r0 :: rs).filter properURow = r0 :: rs.filter properURow := by
        simp [List.filter_cons, hp0]
      rw [hfilter, List.map_cons] at hdis
      unfold distinctB at hdis
      rw [Bool.and_eq_true, Bool.not_eq_true'] at hdis
      obtain ⟨hnotin, hdis'⟩ := hdis
      unfold uRowsUnits
      rw [List.foldl_cons, if_pos hp0]
      rw [show List.foldl _ (dinsert u0 (some (uTok 0 r0)) (udOf r0)) rs =
        uRowsUnits (dinsert u0 (some (uTok 0 r0)) (udOf r0)) rs from rfl]
      rcases List.mem_cons.mp hr with h0 | h0
      · subst h0
        rw [uRowsUnits_other rs _ _ ?_]
        · exact dget_dinsert_self _ _ _
        · intro x hx hpx heq
          have hmem : uTok 0 x ∈ (rs.filter properURow).map (uTok 0) :=
            List.mem_map_of_mem (uTok 0) (List.mem_filter.mpr ⟨hx, hpx⟩)
          rw [show uTok 0 x = uTok 0 r from (Option.some_injective _ heq).symm] at hmem
          exact contains_false_ne hnotin (uTok 0 r) hmem rfl
      · exact ih _ hdis' r h0 hpr
    · rw [Bool.not_eq_true] at hp0
      have hfilter : (r0 :: rs).filter properURow = rs.filter properURow := by
        simp [List.filter_cons, hp0]
      rw [hfilter] at hdis
      unfold uRowsUnits
      rw [List.foldl_cons, if_neg (by rw [hp0]; exact Bool.false_ne_true)]
      rcases List.mem_cons.mp hr with h0 | h0
      · subst h0
        rw [hpr] at hp0
        cases hp0
      · exact ih u0 hdis r h0 hpr

/-- C7.  For every well-formed unit listing, each proper data row yields a
record whose fields are the sentinel-normalised tokens (`-` and empty
become `None`), retrievable under its hash; a `-` field leaves the row
hash absent from every bucket of that secondary index, while any other
field value indexes the row hash under that value. -/
theorem unit_listing_normalization_ok (output : String) (hWF : unitsWF output = true) :
    UnitListingOK output := by
  unfold unitsWF at hWF
  rcases hrows : pySplitSep '\n' output with _ | ⟨r0, _ | ⟨r1, rest⟩⟩ <;> rw [hrows] at hWF
  · cases hWF
  · cases hWF
  rw [Bool.and_eq_true, Bool.and_eq_true] at hWF
  obtain ⟨⟨hheader, hall⟩, hdis⟩ := hWF
  have hheq : (pySplit r0).map pyLower = unitsHeader := eq_of_beq hheader
  have hallf : ∀ r ∈ r1 :: rest, unitRowWF r = true := List.all_eq_true.mp hall
  have hdecomp := unitRows_decomp (r1 :: rest) ⟨[], [], [], [], [], none⟩ hallf
  have hdata : dataRows output = r1 :: rest := by
    simp [dataRows, hrows]
  refine ⟨⟨uRowsUnits [] (r1 :: rest), uRowsField 2 [] (r1 :: rest),
    uRowsField 3 [] (r1 :: rest), uRowsField 4 [] (r1 :: rest),
    uRowsField 5 [] (r1 :: rest), some (uRowsUnits [] (r1 :: rest)).length⟩, ?_, ?_⟩
  · simp only [parseListUnits, hrows, hheq, hdecomp]
  · intro r hr hpr
    rw [hdata] at hr
    have hfield : ∀ i : Nat,
        FieldOK (uRowsField i [] (r1 :: rest)) (uTok i r) (uTok 0 r) (udOf r) := by
      intro i
      unfold FieldOK
      by_cases ht : uTok i r = "-" ∨ uTok i r = ""
      · rw [if_pos ht]
        intro v
        by_contra hcc
        rcases uRowsField_mem i (r1 :: rest) [] v (some (uTok 0 r)) hcc with
          h1 | ⟨r', hr', hpr', hh, ht'⟩
        · exact h1 rfl
        · have heqr : r = r' := distinctB_map_inj hdis r
            (List.mem_filter.mpr ⟨hr, hpr⟩) r' (List.mem_filter.mpr ⟨hr', hpr'⟩)
            (Option.some_injective _ hh)
          exact ht' (heqr ▸ ht)
      · rw [if_neg ht]
        exact uRowsField_content i (r1 :: rest) [] hdis r hr hpr ht
    exact ⟨uRowsUnits_lookup (r1 :: rest) [] hdis r hr hpr, rfl, rfl, rfl, rfl, rfl, rfl,
      hfield 2, hfield 3, hfield 4, hfield 5⟩

/-- Witness for C7: a listing with a fully populated row and a row with
`-` sentinels in the load and machine columns. -/
theorem unit_listing_normalization_witness :
    unitsWF unitsListingExample = true ∧ UnitListingOK unitsListingExample :=
  ⟨by decide, unit_listing_normalization_ok unitsListingExample (by decide)⟩
